import Mathlib

/-!
# Verification of the S3 convenience layer (`src/s3.py`)

Shallow embedding of the four operations of `src/s3.py`:
`list_objects_s3`, `upload_object_s3`, `download_object_s3`,
`delete_object_s3`.

The module is a thin wrapper over a remote object store.  The source
logic is the pagination loop of `list_objects_s3` plus the
try/except wrappers of the other three operations; the remote service
itself (boto3 / S3) is external, so its protocol is modelled from the
spec where a claim depends on it (each such definition is marked
`Modelled from the spec:`).

Conventions of the embedding:
* A client call that may raise is an `Except S3Error` value.
* The `print` in each `except` branch is modelled as a logged message
  (`LogMsg`); each of the four format strings of the source becomes a
  distinct constructor carrying the caught cause, so the log entry
  identifies the failing operation and the underlying error.
* The unbounded Python `while True` loop is given a fuel parameter;
  `none` as overall result means the fuel was exhausted (the loop was
  still running), `some r` means the loop exited and the function
  returned `r`.
* Continuation tokens are modelled as `Option Nat` (Python `None` /
  a token value); `response.get` returning an absent field is `none`.
* Object keys, buckets and paths are strings; file contents are lists
  of bytes modelled as `List Nat`.
-/

/-- An error raised by the underlying storage client (the `Exception e`
caught by the source's `except` clauses). -/
inductive S3Error where
  | notFound (bucket key : String)
  | other (msg : String)
deriving DecidableEq

/-- A message printed by one of the source's `except` branches.  Each of
the four operations prints a distinct, operation-identifying format
string around the caught cause `e`:
`"Error listing objects: {e}"`, `"Error uploading file: {e}"`,
`"Exception downloading object: {e}"`, `"Exception deleting object: {e}"`. -/
inductive LogMsg where
  | listingError (cause : S3Error)
  | uploadError (cause : S3Error)
  | downloadError (cause : S3Error)
  | deleteError (cause : S3Error)
deriving DecidableEq

/-- One `list_objects_v2` response: the optional `Contents` field
(list of object keys, absent when the page is empty) and the optional
`NextContinuationToken`. -/
structure Page where
  contents : Option (List String)
  nextContinuationToken : Option Nat
deriving DecidableEq

/-- What `list_objects_s3` produces: the `object_keys` list it returns,
the message logged by its `except` branch (if any), and - as ghost
instrumentation - the continuation tokens of the page requests it
issued, in order (`none` is the initial request without a token). -/
structure ListResult where
  object_keys : List String
  logged : Option LogMsg
  requestedTokens : List (Option Nat)
deriving DecidableEq

/-- The storage client's `list_objects_v2`, with bucket, prefix and
page size already applied: a function from the continuation token of
the request (`none` for the first request) to a page or an error. -/
abbrev S3Svc := Option Nat → Except S3Error Page

/-- The `while True` loop of `list_objects_s3` (src/s3.py lines 50-80):
request a page with the current token; on an exception, log the
operation-tagged message and return the keys accumulated so far; on
success extend the accumulator with `Contents` (if present) and
continue with `NextContinuationToken`, exiting when it is absent.
`fuel` bounds the number of iterations; result `none` means the fuel
ran out with the loop still running. -/
def listObjectsLoop (svc : S3Svc) : Nat → Option Nat → List String → List (Option Nat) → Option ListResult
  | 0, _, _, _ => none
  | fuel + 1, tok, acc, tr =>
    match svc tok with
    | Except.error e => some ⟨acc, some (LogMsg.listingError e), tr ++ [tok]⟩
    | Except.ok page =>
      let acc2 := acc ++ page.contents.getD []
      match page.nextContinuationToken with
      | none => some ⟨acc2, none, tr ++ [tok]⟩
      | some t => listObjectsLoop svc fuel (some t) acc2 (tr ++ [tok])

/-- `list_objects_s3` of src/s3.py: start the pagination loop with no
continuation token and an empty accumulator. -/
def list_objects_s3 (svc : S3Svc) (fuel : Nat) : Option ListResult :=
  listObjectsLoop svc fuel none [] []

/-- Key matching of the prefix filter: the prefix's characters are an
initial segment of the key's characters. -/
def isKeyMatch (pfx key : String) : Bool :=
  pfx.data.isPrefixOf key.data

/-- The keys of `bucket` that match `pfx`, in the service's listing
order. -/
def matchingKeys (bucket : List String) (pfx : String) : List String :=
  bucket.filter (fun k => isKeyMatch pfx k)

/-- Modelled from the spec: the remote service's paginated
`list_objects_v2` protocol (spec sections 3 and 4.1; the service
itself is not part of src/).  A bucket is the list of its keys in
listing order; a continuation token is the position reached in the
filtered listing.  The response carries at most `maxKeys` matching
keys starting at that position (`Contents` absent when there are
none), and a `NextContinuationToken` exactly when matching keys
remain beyond this page. -/
def serviceRespond (bucket : List String) (pfx : String) (maxKeys : Nat) (tok : Option Nat) : Page :=
  let ms := matchingKeys bucket pfx
  let start := tok.getD 0
  let page := (ms.drop start).take maxKeys
  ⟨if page.isEmpty then none else some page,
   if start + maxKeys < ms.length then some (start + maxKeys) else none⟩

/-- A storage client all of whose page requests succeed, answering
according to the modelled service protocol. -/
def honestSvc (bucket : List String) (pfx : String) (maxKeys : Nat) : S3Svc :=
  fun tok => Except.ok (serviceRespond bucket pfx maxKeys tok)

/-- Lift a pure page function to a client none of whose requests fail. -/
def okSvc (svcP : Option Nat → Page) : S3Svc :=
  fun tok => Except.ok (svcP tok)

/-- The keys the modelled service returns for the request with token
`t` (empty when `Contents` is absent). -/
def pageContentsAt (bucket : List String) (pfx : String) (maxKeys : Nat)
    (tok : Option Nat) : List String :=
  (serviceRespond bucket pfx maxKeys tok).contents.getD []

/-- The continuation token of the `j`-th page request the loop issues
against an honest service with page size `k`: no token on the first
request, then the multiples of `k`. -/
def tokenOfReq (k j : Nat) : Option Nat :=
  if j = 0 then none else some (j * k)

/-- A storage client that answers honestly except at the single token
`tokenOfReq k j`, where it raises `e`: the `j`-th page request of a
run fails. -/
def failingSvc (bucket : List String) (pfx : String) (k j : Nat) (e : S3Error) : S3Svc :=
  fun tok =>
    if tok = tokenOfReq k j then Except.error e
    else honestSvc bucket pfx k tok

/-- The tokens an honest-service run requests, starting from token
`tok`: the run continues to `tok.getD 0 + k` while that position is
still short of the `len` matching keys. -/
def honestTokens (len k : Nat) (tok : Option Nat) : List (Option Nat) :=
  if h : tok.getD 0 + k < len ∧ 1 ≤ k then
    tok :: honestTokens len k (some (tok.getD 0 + k))
  else [tok]
termination_by len - tok.getD 0
decreasing_by
  simp only [Option.getD_some]
  omega

/-- A requested-token list is a faithful continuation-token chain for
the pure page function `svcP`: each response's
`NextContinuationToken` is the next requested token, and the last
response carries no token. -/
def tokenChainOk (svcP : Option Nat → Page) : List (Option Nat) → Bool
  | [] => true
  | [t] => (svcP t).nextContinuationToken.isNone
  | t :: t2 :: rest =>
    ((svcP t).nextContinuationToken == t2) && tokenChainOk svcP (t2 :: rest)

/-- The token chain of the pure page function `svcP` starting from
request token `tok` ends within `n` further responses: some response
along the chain carries no `NextContinuationToken`. -/
def chainEndsWithin (svcP : Option Nat → Page) : Nat → Option Nat → Bool
  | 0, tok => (svcP tok).nextContinuationToken.isNone
  | n + 1, tok =>
    match (svcP tok).nextContinuationToken with
    | none => true
    | some t => chainEndsWithin svcP n (some t)

/-- The `multipart_threshold` of the `TransferConfig` built by
`upload_object_s3` (src/s3.py line 104): fixed at 8 MiB. -/
def multipart_threshold : Nat := 8 * 1024 * 1024

/-- The `multipart_chunksize` of the `TransferConfig` built by
`upload_object_s3` (src/s3.py line 106): fixed at 8 MiB. -/
def multipart_chunksize : Nat := 8 * 1024 * 1024

/-- How an upload is transferred: one request, or several parts. -/
inductive TransferMode where
  | singleRequest
  | multipart
deriving DecidableEq

/-- Modelled from the spec: the transfer logic behind the client's
`upload_file` (spec section 4.1 and section 8 boundary note) - a file
of size at most `threshold` goes in a single request, a larger one is
a multipart transfer.  `threshold` is the claim's caller-chosen
`chunk_threshold`. -/
def transferMode (threshold size : Nat) : TransferMode :=
  if size ≤ threshold then TransferMode.singleRequest else TransferMode.multipart

/-- The transfer mode `upload_object_s3` actually uses for a file of
`size` bytes: the threshold is the hard-coded `multipart_threshold`,
the caller passes only bucket, path and object name. -/
def uploadTransferMode (size : Nat) : TransferMode :=
  transferMode multipart_threshold size

/-- Split `l` into consecutive chunks of `c` elements (the last chunk
may be shorter); `n` is structural fuel, intended as `l.length`. -/
def chunksOfAux : Nat → Nat → List Nat → List (List Nat)
  | 0, _, _ => []
  | _, _, [] => []
  | n + 1, c, a :: l => ((a :: l).take c) :: chunksOfAux n c ((a :: l).drop c)

/-- Modelled from the spec: a multipart transfer splits the file's
bytes into `chunk_size` parts (spec section 4.1), reassembled
server-side. -/
def chunksOf (c : Nat) (l : List Nat) : List (List Nat) :=
  chunksOfAux l.length c l

/-- A local filesystem: a mapping from path to byte content. -/
abbrev FileSys := List (String × List Nat)

/-- The remote store's contents: a mapping from (bucket, key) to byte
content. -/
abbrev S3Store := List ((String × String) × List Nat)

/-- Modelled from the spec: the client's `download_file` (spec
sections 4.1 and 8) - if the key exists in the bucket its content is
written to `path` (overwriting), otherwise a not-found error is
raised and the destination file is not created. -/
def clientDownloadFile (st : S3Store) (bucket key path : String) (fs : FileSys) : Except S3Error FileSys :=
  match st.lookup (bucket, key) with
  | some content => Except.ok ((path, content) :: fs)
  | none => Except.error (S3Error.notFound bucket key)

/-- Modelled from the spec: the client's `delete_object` (spec section
4.1) - deletion of a key is idempotent at the protocol level: the key's
entries are removed, and a non-existent key is not an error. -/
def clientDeleteObject (st : S3Store) (bucket key : String) : Except S3Error S3Store :=
  Except.ok (st.filter (fun entry => !(entry.1 == (bucket, key))))

/-- `upload_object_s3` of src/s3.py, given the outcome of the client's
`upload_file` call: on success nothing is logged; on an exception the
operation-tagged message with the cause is logged.  Nothing is ever
raised to the caller (the function's Python return value is `None` in
both cases). -/
def upload_object_s3 (uploadCall : Except S3Error Unit) : Option LogMsg :=
  match uploadCall with
  | Except.ok _ => none
  | Except.error e => some (LogMsg.uploadError e)

/-- What `download_object_s3` leaves behind: the resulting local
filesystem and the logged message of its `except` branch, if any. -/
structure DownloadResult where
  fs : FileSys
  logged : Option LogMsg
deriving DecidableEq

/-- `download_object_s3` of src/s3.py, given the outcome of the
client's `download_file` call and the filesystem before the call: on
success the new filesystem, nothing logged; on an exception the
filesystem is unchanged and the operation-tagged message with the
cause is logged.  Nothing is raised to the caller. -/
def download_object_s3 (downloadCall : Except S3Error FileSys) (fs : FileSys) : DownloadResult :=
  match downloadCall with
  | Except.ok fs2 => ⟨fs2, none⟩
  | Except.error e => ⟨fs, some (LogMsg.downloadError e)⟩

/-- What `delete_object_s3` leaves behind: the resulting store state
and the logged message of its `except` branch, if any. -/
structure DeleteResult where
  state : S3Store
  logged : Option LogMsg
deriving DecidableEq

/-- `delete_object_s3` of src/s3.py, given the outcome of the client's
`delete_object` call and the store before the call: on success the
new store, nothing logged; on an exception the store is unchanged and
the operation-tagged message with the cause is logged.  Nothing is
raised to the caller. -/
def delete_object_s3 (deleteCall : Except S3Error S3Store) (st : S3Store) : DeleteResult :=
  match deleteCall with
  | Except.ok st2 => ⟨st2, none⟩
  | Except.error e => ⟨st, some (LogMsg.deleteError e)⟩

/-- `download_object_s3` run against the modelled storage service. -/
def downloadRun (st : S3Store) (bucket key path : String) (fs : FileSys) : DownloadResult :=
  download_object_s3 (clientDownloadFile st bucket key path fs) fs

/-- `delete_object_s3` run against the modelled storage service. -/
def deleteRun (st : S3Store) (bucket key : String) : DeleteResult :=
  delete_object_s3 (clientDeleteObject st bucket key) st

/-- A concrete bucket for the listing scenario: five keys under the
scenario prefix and one other key. -/
def bucket5 : List String :=
  ["logs/a", "logs/b", "logs/c", "logs/d", "logs/e", "misc/x"]

/-- The scenario prefix. -/
def pfx5 : String := "logs/"

/-- A concrete client failure cause for witnesses. -/
def errBoom : S3Error := S3Error.other ("boom")

/-- A client whose every page request fails, for witnesses. -/
def constFailSvc : S3Svc := fun _ => Except.error errBoom

/-- A pure one-page service: a single page with one key and no
continuation token, for witnesses. -/
def onePageSvc : Option Nat → Page := fun _ => ⟨some (["k"]), none⟩

/-- A pure service whose first response has a continuation token but
no `Contents`, then one final page, for witnesses. -/
def emptyThenDoneSvc : Option Nat → Page :=
  fun tok =>
    match tok with
    | none => ⟨none, some 1⟩
    | some _ => ⟨some (["k"]), none⟩

/-! ## Basic unfolding lemmas -/

theorem if_isEmpty_getD (x : List String) :
    (if x.isEmpty then none else some x).getD ([] : List String) = x := by
  cases x <;> simp

theorem serviceRespond_contents (bucket : List String) (pfx : String) (k : Nat) (tok : Option Nat) :
    (serviceRespond bucket pfx k tok).contents.getD [] =
      ((matchingKeys bucket pfx).drop (tok.getD 0)).take k := by
  simp only [serviceRespond]
  exact if_isEmpty_getD _

theorem serviceRespond_next (bucket : List String) (pfx : String) (k : Nat) (tok : Option Nat) :
    (serviceRespond bucket pfx k tok).nextContinuationToken =
      if tok.getD 0 + k < (matchingKeys bucket pfx).length
      then some (tok.getD 0 + k) else none := by
  simp only [serviceRespond]

theorem loop_step_ok (svc : S3Svc) (fuel : Nat) (tok : Option Nat) (acc : List String)
    (tr : List (Option Nat)) (page : Page) (hsvc : svc tok = Except.ok page) :
    listObjectsLoop svc (fuel + 1) tok acc tr =
      match page.nextContinuationToken with
      | none => some ⟨acc ++ page.contents.getD [], none, tr ++ [tok]⟩
      | some t => listObjectsLoop svc fuel (some t) (acc ++ page.contents.getD []) (tr ++ [tok]) := by
  simp only [listObjectsLoop, hsvc]

theorem loop_step_err (svc : S3Svc) (fuel : Nat) (tok : Option Nat) (acc : List String)
    (tr : List (Option Nat)) (e : S3Error) (hsvc : svc tok = Except.error e) :
    listObjectsLoop svc (fuel + 1) tok acc tr =
      some ⟨acc, some (LogMsg.listingError e), tr ++ [tok]⟩ := by
  simp only [listObjectsLoop, hsvc]

theorem honestTokens_pos {len k : Nat} {tok : Option Nat}
    (h : tok.getD 0 + k < len) (hk : 1 ≤ k) :
    honestTokens len k tok = tok :: honestTokens len k (some (tok.getD 0 + k)) := by
  rw [honestTokens]
  rw [dif_pos ⟨h, hk⟩]

theorem honestTokens_neg {len k : Nat} {tok : Option Nat}
    (h : ¬(tok.getD 0 + k < len ∧ 1 ≤ k)) :
    honestTokens len k tok = [tok] := by
  rw [honestTokens]
  rw [dif_neg h]

theorem honestTokens_head (len k : Nat) (tok : Option Nat) :
    ∃ rest, honestTokens len k tok = tok :: rest := by
  rw [honestTokens]
  by_cases h : tok.getD 0 + k < len ∧ 1 ≤ k
  · rw [dif_pos h]
    exact ⟨_, rfl⟩
  · rw [dif_neg h]
    exact ⟨[], rfl⟩

/-! ## The honest-service run of the pagination loop -/

theorem honest_loop (bucket : List String) (pfx : String) (k : Nat) (hk : 1 ≤ k) :
    ∀ (fuel : Nat) (tok : Option Nat) (acc : List String) (tr : List (Option Nat)),
      (matchingKeys bucket pfx).length - tok.getD 0 < fuel →
      listObjectsLoop (honestSvc bucket pfx k) fuel tok acc tr =
        some ⟨acc ++ (matchingKeys bucket pfx).drop (tok.getD 0), none,
              tr ++ honestTokens (matchingKeys bucket pfx).length k tok⟩ := by
  intro fuel
  induction fuel with
  | zero => intro tok acc tr h; omega
  | succ fuel ih =>
    intro tok acc tr h
    rw [loop_step_ok (honestSvc bucket pfx k) fuel tok acc tr _ rfl]
    rw [serviceRespond_next, serviceRespond_contents]
    by_cases hlt : tok.getD 0 + k < (matchingKeys bucket pfx).length
    · simp only [if_pos hlt]
      rw [ih (some (tok.getD 0 + k)) _ _ (by simp only [Option.getD_some]; omega)]
      rw [honestTokens_pos hlt hk]
      simp only [Option.getD_some]
      have hdrop : List.take k (List.drop (tok.getD 0) (matchingKeys bucket pfx)) ++
          List.drop (tok.getD 0 + k) (matchingKeys bucket pfx) =
          List.drop (tok.getD 0) (matchingKeys bucket pfx) := by
        rw [← List.drop_drop]
        exact List.take_append_drop k _
      simp [List.append_assoc, hdrop]
    · simp only [if_neg hlt]
      rw [honestTokens_neg (fun hc => hlt hc.1)]
      have hlen : ((matchingKeys bucket pfx).drop (tok.getD 0)).length ≤ k := by
        simp only [List.length_drop]; omega
      rw [List.take_of_length_le hlen]

theorem tokenChainOk_honestTokens (bucket : List String) (pfx : String) (k : Nat) (hk : 1 ≤ k) :
    ∀ (n : Nat) (tok : Option Nat), (matchingKeys bucket pfx).length - tok.getD 0 ≤ n →
      tokenChainOk (serviceRespond bucket pfx k)
        (honestTokens (matchingKeys bucket pfx).length k tok) = true := by
  intro n
  induction n with
  | zero =>
    intro tok hb
    have hlt : ¬(tok.getD 0 + k < (matchingKeys bucket pfx).length) := by omega
    rw [honestTokens_neg (fun hc => hlt hc.1)]
    simp [tokenChainOk, serviceRespond_next, hlt]
  | succ n ih =>
    intro tok hb
    by_cases hlt : tok.getD 0 + k < (matchingKeys bucket pfx).length
    · rw [honestTokens_pos hlt hk]
      obtain ⟨rest, hrest⟩ :=
        honestTokens_head (matchingKeys bucket pfx).length k (some (tok.getD 0 + k))
      rw [hrest]
      have hchain := ih (some (tok.getD 0 + k)) (by simp only [Option.getD_some]; omega)
      rw [hrest] at hchain
      simp [tokenChainOk, serviceRespond_next, hlt, hchain]
    · rw [honestTokens_neg (fun hc => hlt hc.1)]
      simp [tokenChainOk, serviceRespond_next, hlt]

theorem flatten_honestTokens (bucket : List String) (pfx : String) (k : Nat) (hk : 1 ≤ k) :
    ∀ (n : Nat) (tok : Option Nat), (matchingKeys bucket pfx).length - tok.getD 0 ≤ n →
      ((honestTokens (matchingKeys bucket pfx).length k tok).map
          (pageContentsAt bucket pfx k)).flatten =
        (matchingKeys bucket pfx).drop (tok.getD 0) := by
  intro n
  induction n with
  | zero =>
    intro tok hb
    have hlt : ¬(tok.getD 0 + k < (matchingKeys bucket pfx).length) := by omega
    rw [honestTokens_neg (fun hc => hlt hc.1)]
    have hlen : ((matchingKeys bucket pfx).drop (tok.getD 0)).length ≤ k := by
      simp only [List.length_drop]; omega
    simp [pageContentsAt, serviceRespond_contents, List.take_of_length_le hlen]
  | succ n ih =>
    intro tok hb
    by_cases hlt : tok.getD 0 + k < (matchingKeys bucket pfx).length
    · rw [honestTokens_pos hlt hk]
      have hrec := ih (some (tok.getD 0 + k)) (by simp only [Option.getD_some]; omega)
      simp only [Option.getD_some, pageContentsAt, serviceRespond_contents] at hrec
      have hdrop : List.take k (List.drop (tok.getD 0) (matchingKeys bucket pfx)) ++
          List.drop (tok.getD 0 + k) (matchingKeys bucket pfx) =
          List.drop (tok.getD 0) (matchingKeys bucket pfx) := by
        rw [← List.drop_drop]
        exact List.take_append_drop k _
      simp only [List.map_cons, List.flatten_cons, pageContentsAt, serviceRespond_contents]
      rw [hrec]
      exact hdrop
    · rw [honestTokens_neg (fun hc => hlt hc.1)]
      have hlen : ((matchingKeys bucket pfx).drop (tok.getD 0)).length ≤ k := by
        simp only [List.length_drop]; omega
      simp [pageContentsAt, serviceRespond_contents, List.take_of_length_le hlen]

theorem honest_run (bucket : List String) (pfx : String) (k fuel : Nat)
    (hk : 1 ≤ k) (hf : (matchingKeys bucket pfx).length < fuel) :
    list_objects_s3 (honestSvc bucket pfx k) fuel =
      some ⟨matchingKeys bucket pfx, none,
            honestTokens (matchingKeys bucket pfx).length k none⟩ := by
  have e := honest_loop bucket pfx k hk fuel none [] [] (by simp only [Option.getD_none]; omega)
  simpa [list_objects_s3] using e

/-! ## The failing-service run of the pagination loop -/

theorem tokenOfReq_getD (k i : Nat) : (tokenOfReq k i).getD 0 = i * k := by
  unfold tokenOfReq
  by_cases h : i = 0
  · simp [h]
  · simp [h]

theorem tokenOfReq_ne (k : Nat) (hk : 1 ≤ k) {i j : Nat} (hij : i ≠ j) :
    tokenOfReq k i ≠ tokenOfReq k j := by
  unfold tokenOfReq
  by_cases hi : i = 0 <;> by_cases hj : j = 0 <;> simp [hi, hj] at hij ⊢
  exact ⟨hij, by omega⟩

theorem failing_loop (bucket : List String) (pfx : String) (k j : Nat) (e : S3Error)
    (hk : 1 ≤ k) (hj : j * k < (matchingKeys bucket pfx).length) :
    ∀ (fuel i : Nat) (acc : List String) (tr : List (Option Nat)), i ≤ j → j - i < fuel →
      listObjectsLoop (failingSvc bucket pfx k j e) fuel (tokenOfReq k i) acc tr =
        some ⟨acc ++ ((matchingKeys bucket pfx).drop (i * k)).take ((j - i) * k),
              some (LogMsg.listingError e),
              tr ++ (List.range (j - i + 1)).map (fun m => tokenOfReq k (i + m))⟩ := by
  intro fuel
  induction fuel with
  | zero => intro i acc tr hij hfuel; omega
  | succ fuel ih =>
    intro i acc tr hij hfuel
    by_cases heq : i = j
    · subst heq
      have hfail : failingSvc bucket pfx k i e (tokenOfReq k i) = Except.error e := by
        unfold failingSvc
        rw [if_pos rfl]
      rw [loop_step_err _ _ _ _ _ _ hfail]
      simp [List.range_succ]
    · have hlt : i < j := Nat.lt_of_le_of_ne hij heq
      have hok : failingSvc bucket pfx k j e (tokenOfReq k i) =
          Except.ok (serviceRespond bucket pfx k (tokenOfReq k i)) := by
        unfold failingSvc
        rw [if_neg (tokenOfReq_ne k hk heq)]
        rfl
      rw [loop_step_ok _ _ _ _ _ _ hok]
      rw [serviceRespond_next, serviceRespond_contents, tokenOfReq_getD]
      have hik : i * k + k < (matchingKeys bucket pfx).length := by
        have h1 : (i + 1) * k ≤ j * k := Nat.mul_le_mul_right k (by omega)
        have h2 : (i + 1) * k = i * k + k := Nat.succ_mul i k
        omega
      simp only [if_pos hik]
      have htok : some (i * k + k) = tokenOfReq k (i + 1) := by
        unfold tokenOfReq
        rw [if_neg (by omega : ¬(i + 1 = 0))]
        rw [Nat.succ_mul]
      rw [htok]
      rw [ih (i + 1) _ _ (by omega) (by omega)]
      have hkeys : List.take k (List.drop (i * k) (matchingKeys bucket pfx)) ++
          List.take ((j - (i + 1)) * k) (List.drop ((i + 1) * k) (matchingKeys bucket pfx)) =
          List.take ((j - i) * k) (List.drop (i * k) (matchingKeys bucket pfx)) := by
        have hsplit : (j - i) * k = k + (j - (i + 1)) * k := by
          rw [show j - i = (j - (i + 1)) + 1 from by omega, Nat.succ_mul]
          omega
        rw [hsplit, List.take_add]
        rw [List.drop_drop]
        rw [show i * k + k = (i + 1) * k from (Nat.succ_mul i k).symm]
      have htr : (List.range (j - (i + 1) + 1)).map (fun m => tokenOfReq k (i + 1 + m)) =
          (List.range (j - i)).map (fun m => tokenOfReq k (i + (m + 1))) := by
        rw [show j - i = (j - (i + 1)) + 1 from by omega]
        apply List.map_congr_left
        intro a _
        rw [show i + 1 + a = i + (a + 1) from by omega]
      have hrange : (List.range (j - i + 1)).map (fun m => tokenOfReq k (i + m)) =
          tokenOfReq k i :: (List.range (j - i)).map (fun m => tokenOfReq k (i + (m + 1))) := by
        rw [List.range_succ_eq_map]
        simp [List.map_map, Function.comp]
      rw [htr, hrange]
      simp [List.append_assoc, hkeys]

/-! ## Chunking lemmas for the upload transfer model -/

theorem chunksOfAux_flatten :
    ∀ (n c : Nat) (l : List Nat), l.length ≤ n → 1 ≤ c →
      (chunksOfAux n c l).flatten = l := by
  intro n
  induction n with
  | zero =>
    intro c l hl hc
    have : l = [] := by
      cases l with
      | nil => rfl
      | cons a l => simp at hl
    subst this
    rfl
  | succ n ih =>
    intro c l hl hc
    cases l with
    | nil => rfl
    | cons a l =>
      simp only [chunksOfAux, List.flatten_cons]
      rw [ih c ((a :: l).drop c)
        (by simp only [List.length_drop, List.length_cons]
            simp only [List.length_cons] at hl
            omega) hc]
      exact List.take_append_drop c (a :: l)

theorem chunksOfAux_part_le :
    ∀ (n c : Nat) (l : List Nat) (part : List Nat), part ∈ chunksOfAux n c l →
      part.length ≤ c := by
  intro n
  induction n with
  | zero =>
    intro c l part hmem
    simp [chunksOfAux] at hmem
  | succ n ih =>
    intro c l part hmem
    cases l with
    | nil => simp [chunksOfAux] at hmem
    | cons a l =>
      simp only [chunksOfAux, List.mem_cons] at hmem
      rcases hmem with hmem | hmem
      · subst hmem
        simp [List.length_take]
      · exact ih c _ part hmem

/-! ## The claims -/

/-- C1: pagination transparency - against a service holding the bucket's keys,
`list_objects_s3` with any page size at least 1 (and fuel beyond the number
of matching keys) returns exactly the keys matching the prefix, with nothing
logged, so the returned keys are the same for any two page sizes. -/
theorem pagination_transparency (bucket : List String) (pfx : String)
    (k1 k2 fuel1 fuel2 : Nat) (h1 : 1 ≤ k1) (h2 : 1 ≤ k2)
    (hf1 : (matchingKeys bucket pfx).length < fuel1)
    (hf2 : (matchingKeys bucket pfx).length < fuel2) :
    (list_objects_s3 (honestSvc bucket pfx k1) fuel1).map ListResult.object_keys =
      some (matchingKeys bucket pfx) ∧
    (list_objects_s3 (honestSvc bucket pfx k2) fuel2).map ListResult.object_keys =
      (list_objects_s3 (honestSvc bucket pfx k1) fuel1).map ListResult.object_keys ∧
    (list_objects_s3 (honestSvc bucket pfx k1) fuel1).map ListResult.logged = some none ∧
    (list_objects_s3 (honestSvc bucket pfx k2) fuel2).map ListResult.logged = some none := by
  rw [honest_run bucket pfx k1 fuel1 h1 hf1, honest_run bucket pfx k2 fuel2 h2 hf2]
  exact ⟨rfl, rfl, rfl, rfl⟩

theorem pagination_transparency_witness :
    (list_objects_s3 (honestSvc bucket5 pfx5 2) 6).map ListResult.object_keys =
      some (matchingKeys bucket5 pfx5) ∧
    (list_objects_s3 (honestSvc bucket5 pfx5 3) 6).map ListResult.object_keys =
      (list_objects_s3 (honestSvc bucket5 pfx5 2) 6).map ListResult.object_keys ∧
    (list_objects_s3 (honestSvc bucket5 pfx5 2) 6).map ListResult.logged = some none ∧
    (list_objects_s3 (honestSvc bucket5 pfx5 3) 6).map ListResult.logged = some none :=
  pagination_transparency bucket5 pfx5 2 3 6 6 (by decide) (by decide) (by decide) (by decide)

/-- C2: when the `j`-th page request of a listing fails with cause `e`, the
loop aborts there (the requested tokens stop at request `j`), the
operation-tagged listing-error message carrying `e` is logged, and the
function returns exactly the keys of the `j` pages accumulated before the
failure - the empty list when the first request fails. -/
theorem listing_failure_returns_accumulated (bucket : List String) (pfx : String)
    (k j : Nat) (e : S3Error) (fuel : Nat) (hk : 1 ≤ k)
    (hj : j = 0 ∨ j * k < (matchingKeys bucket pfx).length) (hf : j < fuel) :
    list_objects_s3 (failingSvc bucket pfx k j e) fuel =
      some ⟨(matchingKeys bucket pfx).take (j * k), some (LogMsg.listingError e),
            (List.range (j + 1)).map (tokenOfReq k)⟩ := by
  rcases hj with hj | hj
  · subst hj
    obtain ⟨fuel2, rfl⟩ : ∃ f2, fuel = f2 + 1 := ⟨fuel - 1, by omega⟩
    unfold list_objects_s3
    have hfail : failingSvc bucket pfx k 0 e none = Except.error e := by
      unfold failingSvc tokenOfReq
      simp
    rw [loop_step_err _ _ _ _ _ _ hfail]
    simp [List.range_succ, tokenOfReq]
  · have h0 := failing_loop bucket pfx k j e hk hj fuel 0 [] [] (by omega) (by omega)
    have htok0 : tokenOfReq k 0 = none := by
      unfold tokenOfReq
      simp
    rw [htok0] at h0
    unfold list_objects_s3
    rw [h0]
    simp

theorem listing_failure_returns_accumulated_witness :
    list_objects_s3 (failingSvc bucket5 pfx5 2 1 errBoom) 2 =
      some ⟨(matchingKeys bucket5 pfx5).take (1 * 2), some (LogMsg.listingError errBoom),
            (List.range (1 + 1)).map (tokenOfReq 2)⟩ :=
  listing_failure_returns_accumulated bucket5 pfx5 2 1 errBoom 2 (by decide)
    (Or.inr (by decide)) (by decide)

/-- C3: every operation catches client exceptions, only logs the
operation-tagged message with the cause, and hands the caller a plain value
(empty/unchanged fallback), never a raised exception: each embedded
operation is a total function, and on a failing client call it returns its
fallback together with the logged message. -/
theorem operations_swallow_client_errors :
    (∀ (e : S3Error), upload_object_s3 (Except.error e) = some (LogMsg.uploadError e)) ∧
    (∀ (e : S3Error) (fs : FileSys),
      download_object_s3 (Except.error e) fs = ⟨fs, some (LogMsg.downloadError e)⟩) ∧
    (∀ (e : S3Error) (st : S3Store),
      delete_object_s3 (Except.error e) st = ⟨st, some (LogMsg.deleteError e)⟩) ∧
    (∀ (svc : S3Svc) (fuel : Nat) (tok : Option Nat) (acc : List String)
        (tr : List (Option Nat)) (e : S3Error), svc tok = Except.error e →
      listObjectsLoop svc (fuel + 1) tok acc tr =
        some ⟨acc, some (LogMsg.listingError e), tr ++ [tok]⟩) := by
  refine ⟨fun e => rfl, fun e fs => rfl, fun e st => rfl, ?_⟩
  intro svc fuel tok acc tr e hsvc
  exact loop_step_err svc fuel tok acc tr e hsvc

theorem operations_swallow_client_errors_witness :
    upload_object_s3 (Except.error errBoom) = some (LogMsg.uploadError errBoom) ∧
    listObjectsLoop constFailSvc 1 none [] [] =
      some ⟨[], some (LogMsg.listingError errBoom), [none]⟩ :=
  ⟨operations_swallow_client_errors.1 errBoom,
   operations_swallow_client_errors.2.2.2 constFailSvc 0 none [] [] errBoom rfl⟩

/-- C4: the pagination loop requests pages and supplies each response's
continuation token to the next request until the service reports no further
token (`tokenChainOk`, starting from the token-free first request), and the
returned keys are the concatenation, in request order, of the pages'
contents - the service's return order is preserved. -/
theorem pagination_accumulates_in_order (bucket : List String) (pfx : String)
    (k fuel : Nat) (hk : 1 ≤ k) (hf : (matchingKeys bucket pfx).length < fuel) :
    list_objects_s3 (honestSvc bucket pfx k) fuel =
      some ⟨matchingKeys bucket pfx, none,
            honestTokens (matchingKeys bucket pfx).length k none⟩ ∧
    (honestTokens (matchingKeys bucket pfx).length k none).head? = some none ∧
    tokenChainOk (serviceRespond bucket pfx k)
      (honestTokens (matchingKeys bucket pfx).length k none) = true ∧
    ((honestTokens (matchingKeys bucket pfx).length k none).map
        (pageContentsAt bucket pfx k)).flatten = matchingKeys bucket pfx := by
  refine ⟨honest_run bucket pfx k fuel hk hf, ?_, ?_, ?_⟩
  · obtain ⟨rest, hrest⟩ := honestTokens_head (matchingKeys bucket pfx).length k none
    rw [hrest]
    rfl
  · exact tokenChainOk_honestTokens bucket pfx k hk (matchingKeys bucket pfx).length none
      (by simp only [Option.getD_none]; omega)
  · have hfl := flatten_honestTokens bucket pfx k hk (matchingKeys bucket pfx).length none
      (by simp only [Option.getD_none]; omega)
    simpa using hfl

theorem pagination_accumulates_in_order_witness :
    list_objects_s3 (honestSvc bucket5 pfx5 2) 6 =
      some ⟨matchingKeys bucket5 pfx5, none,
            honestTokens (matchingKeys bucket5 pfx5).length 2 none⟩ ∧
    (honestTokens (matchingKeys bucket5 pfx5).length 2 none).head? = some none ∧
    tokenChainOk (serviceRespond bucket5 pfx5 2)
      (honestTokens (matchingKeys bucket5 pfx5).length 2 none) = true ∧
    ((honestTokens (matchingKeys bucket5 pfx5).length 2 none).map
        (pageContentsAt bucket5 pfx5 2)).flatten = matchingKeys bucket5 pfx5 :=
  pagination_accumulates_in_order bucket5 pfx5 2 6 (by decide) (by decide)

/-- C5: listing an empty bucket, or a prefix no key matches, returns the
empty key sequence with nothing logged - a single token-free page request
and no error. -/
theorem empty_listing_no_error (bucket : List String) (pfx : String) (k fuel : Nat)
    (hk : 1 ≤ k) (hempty : matchingKeys bucket pfx = []) (hf : 0 < fuel) :
    list_objects_s3 (honestSvc bucket pfx k) fuel = some ⟨[], none, [none]⟩ := by
  have e := honest_run bucket pfx k fuel hk (by rw [hempty]; simpa using hf)
  rw [e, hempty]
  have h2 : honestTokens (List.length ([] : List String)) k none = [none] := by
    apply honestTokens_neg
    simp
  rw [h2]

theorem empty_listing_no_error_witness :
    list_objects_s3 (honestSvc ([] : List String) pfx5 2) 1 = some ⟨[], none, [none]⟩ :=
  empty_listing_no_error [] pfx5 2 1 (by decide) (by decide) (by decide)

/-- C6, counterexample to the claim as stated: the claim makes the chunk
threshold a caller-configurable parameter of the upload operation, but
`upload_object_s3` takes only bucket, file path and object name and passes a
hard-coded 8 MiB `TransferConfig`; a caller choosing a 16 MiB threshold
would get a single-request transfer for a 9 MiB file, while the code
performs a multipart transfer. -/
theorem upload_threshold_not_caller_configurable :
    transferMode (16 * 1024 * 1024) (9 * 1024 * 1024) = TransferMode.singleRequest ∧
    uploadTransferMode (9 * 1024 * 1024) = TransferMode.multipart := by
  constructor <;> decide

/-- C6, amended: the upload chunk threshold and chunk size are fixed at
8 MiB (not caller-configurable); a file of size at most the threshold is
transferred in a single request, a larger one as a multipart transfer whose
8 MiB parts reassemble to the file's content. -/
theorem upload_fixed_threshold_and_chunking (size : Nat) (content : List Nat) :
    (uploadTransferMode size = TransferMode.singleRequest ↔ size ≤ multipart_threshold) ∧
    (chunksOf multipart_chunksize content).flatten = content ∧
    ∀ part ∈ chunksOf multipart_chunksize content, part.length ≤ multipart_chunksize := by
  refine ⟨?_, ?_, ?_⟩
  · unfold uploadTransferMode transferMode
    by_cases h : size ≤ multipart_threshold
    · simp [h]
    · simp [h]
  · exact chunksOfAux_flatten content.length multipart_chunksize content le_rfl (by decide)
  · intro part hmem
    exact chunksOfAux_part_le content.length multipart_chunksize content part hmem

theorem upload_fixed_threshold_and_chunking_witness :
    (uploadTransferMode 5 = TransferMode.singleRequest ↔ 5 ≤ multipart_threshold) ∧
    (chunksOf multipart_chunksize [1, 2, 3]).flatten = [1, 2, 3] :=
  ⟨(upload_fixed_threshold_and_chunking 5 [1, 2, 3]).1,
   (upload_fixed_threshold_and_chunking 5 [1, 2, 3]).2.1⟩

/-- C7: listing the scenario bucket of five keys matching the prefix with
page size 2 returns all five keys in service order and issues exactly 3
page requests (tokens: none, 2, 4). -/
theorem five_keys_three_requests :
    list_objects_s3 (honestSvc bucket5 pfx5 2) 4 =
      some ⟨["logs/a", "logs/b", "logs/c", "logs/d", "logs/e"], none,
            [none, some 2, some 4]⟩ ∧
    (list_objects_s3 (honestSvc bucket5 pfx5 2) 4).map
        (fun r => r.requestedTokens.length) = some 3 := by
  constructor <;> decide

/-- C8: downloading a key absent from the bucket logs the download-error
message whose cause is the not-found error naming bucket and key, and
leaves the local filesystem unchanged - in particular the destination file
is not created. -/
theorem download_missing_key_no_file (st : S3Store) (bucket key path : String)
    (fs : FileSys) (hmissing : st.lookup (bucket, key) = none) :
    (downloadRun st bucket key path fs).logged =
      some (LogMsg.downloadError (S3Error.notFound bucket key)) ∧
    (downloadRun st bucket key path fs).fs = fs := by
  unfold downloadRun download_object_s3 clientDownloadFile
  rw [hmissing]
  exact ⟨rfl, rfl⟩

theorem download_missing_key_no_file_witness :
    (downloadRun [] ("bucket-a") ("missing-key") ("/tmp/x") []).logged =
      some (LogMsg.downloadError (S3Error.notFound ("bucket-a") ("missing-key"))) ∧
    (downloadRun [] ("bucket-a") ("missing-key") ("/tmp/x") []).fs = [] :=
  download_missing_key_no_file [] ("bucket-a") ("missing-key") ("/tmp/x") [] rfl

/-- C9: delete is idempotent - for every store, bucket and key, deleting the
same key twice succeeds both times (nothing logged either time, so deleting
a non-existent key is not an error) and the second deletion leaves the
store unchanged. -/
theorem delete_idempotent (st : S3Store) (bucket key : String) :
    (deleteRun st bucket key).logged = none ∧
    (deleteRun (deleteRun st bucket key).state bucket key).logged = none ∧
    (deleteRun (deleteRun st bucket key).state bucket key).state =
      (deleteRun st bucket key).state := by
  unfold deleteRun delete_object_s3 clientDeleteObject
  refine ⟨rfl, rfl, ?_⟩
  simp [List.filter_filter]

/-- C10: the pagination loop terminates with a normal (error-free) result
whenever the service's token chain is well-founded - some response within
`n` steps carries no `NextContinuationToken` - and a response that carries
a continuation token but no `Contents` contributes zero keys while the
loop continues with the next token. -/
theorem listing_terminates_on_wf_token_chain :
    (∀ (svcP : Option Nat → Page) (n fuel : Nat) (tok : Option Nat)
        (acc : List String) (tr : List (Option Nat)),
        chainEndsWithin svcP n tok = true → n < fuel →
        (listObjectsLoop (okSvc svcP) fuel tok acc tr).map ListResult.logged = some none) ∧
    (∀ (svc : S3Svc) (fuel : Nat) (tok : Option Nat) (acc : List String)
        (tr : List (Option Nat)) (t : Nat),
        svc tok = Except.ok ⟨none, some t⟩ →
        listObjectsLoop svc (fuel + 1) tok acc tr =
          listObjectsLoop svc fuel (some t) acc (tr ++ [tok])) := by
  constructor
  · intro svcP n
    induction n with
    | zero =>
      intro fuel tok acc tr hch hf
      obtain ⟨fuel2, rfl⟩ : ∃ f2, fuel = f2 + 1 := ⟨fuel - 1, by omega⟩
      rw [loop_step_ok (okSvc svcP) fuel2 tok acc tr (svcP tok) rfl]
      simp only [chainEndsWithin, Option.isNone_iff_eq_none] at hch
      rw [hch]
      rfl
    | succ n ih =>
      intro fuel tok acc tr hch hf
      obtain ⟨fuel2, rfl⟩ : ∃ f2, fuel = f2 + 1 := ⟨fuel - 1, by omega⟩
      rw [loop_step_ok (okSvc svcP) fuel2 tok acc tr (svcP tok) rfl]
      cases hnext : (svcP tok).nextContinuationToken with
      | none => rfl
      | some t =>
        show (listObjectsLoop (okSvc svcP) fuel2 (some t)
          (acc ++ (svcP tok).contents.getD []) (tr ++ [tok])).map ListResult.logged = some none
        apply ih
        · simp only [chainEndsWithin, hnext] at hch
          exact hch
        · omega
  · intro svc fuel tok acc tr t hsvc
    rw [loop_step_ok _ _ _ _ _ _ hsvc]
    simp

theorem listing_terminates_on_wf_token_chain_witness :
    (listObjectsLoop (okSvc onePageSvc) 1 none [] []).map ListResult.logged = some none ∧
    listObjectsLoop (okSvc emptyThenDoneSvc) 2 none [] [] =
      listObjectsLoop (okSvc emptyThenDoneSvc) 1 (some 1) [] [none] :=
  ⟨listing_terminates_on_wf_token_chain.1 onePageSvc 0 1 none [] [] (by decide) (by decide),
   listing_terminates_on_wf_token_chain.2 (okSvc emptyThenDoneSvc) 1 none [] [] 1 rfl⟩
